import Mathlib

/-!
Verification model of the documentation-grounded code-explanation pipeline
(markdown chunker, vector store, explanation cache, enforcement engine).

Modelling conventions, applied uniformly:

* JavaScript strings are Lean `String`s; all primitive string operations
  (split, trim, substring search, lower-casing) are re-implemented by
  structural recursion over `String.data` so that every definition is
  executable and kernel-reducible.  `\s` is modelled by `Char.isWhitespace`,
  `\w` by ASCII alphanumerics plus underscore, `toLowerCase` by
  `Char.toLower`, and `localeCompare` / the default `Array.sort` comparator
  by code-unit lexicographic order (faithful for the ASCII/BMP range).
* JavaScript numbers used for scores, thresholds and confidences are
  modelled as exact rationals (`ℚ`); decimal literals such as `0.1` are the
  exact rationals `1/10`.  The 32-bit signed wrap-around in the two
  hand-rolled hash functions is modelled exactly on `Int`.
* `Math.sqrt` (inside cosine similarity) and the hash-based embedding
  `generateEmbedding` are floating-point kernels; they are abstracted as
  explicit function parameters (`sqrtF`, `embed`, `sim`), so every theorem
  quantifies over them.
* `crypto.createHash("sha256")` on the cache-key string is modelled as the
  identity on that string (the key string itself is used as the map key);
  this assumes only the collision-freeness of SHA-256.
* Wall-clock time (`new Date()`) is an explicit `Int` parameter `now`,
  measured in milliseconds; the wall-clock `lastModified` chunk field is
  omitted from the chunk model.
* Exceptions are modelled with `Except`/`Option`; the single-threaded
  sequential semantics of one `explainCode` call is modelled as a pure
  function that also returns the updated cache and a flag recording
  whether retrieval was invoked during the call.  The in-flight
  deduplication map is not part of the sequential model; its key,
  `generateContextHash`, is modelled exactly.
-/

/-! ## Primitive string operations (structural re-implementations) -/

/-- Split a character list at every separator character accepted by `p`,
keeping empty segments, like JavaScript `split` on a single-character
regex.  `splitChars p []` is `[[]]`, matching `"".split` = `[""]`. -/
def splitChars (p : Char → Bool) : List Char → List (List Char)
  | [] => [[]]
  | c :: cs =>
    let r := splitChars p cs
    if p c then [] :: r
    else
      match r with
      | h :: t => (c :: h) :: t
      | [] => [[c]]

/-- Drop leading and trailing characters accepted by `p`. -/
def trimCharsBy (p : Char → Bool) (l : List Char) : List Char :=
  ((l.dropWhile p).reverse.dropWhile p).reverse

/-- JavaScript `String.prototype.trim`, modelled with `Char.isWhitespace`. -/
def jsTrim (s : String) : String :=
  String.mk (trimCharsBy Char.isWhitespace s.data)

/-- JavaScript `String.prototype.toLowerCase` (ASCII-faithful). -/
def jsLower (s : String) : String :=
  String.mk (s.data.map Char.toLower)

/-- Decide whether `sub` occurs as a contiguous run inside `hay`
(JavaScript `String.prototype.includes`; the empty list occurs in
everything, as in JavaScript). -/
def listOccurs (sub : List Char) : List Char → Bool
  | [] => sub.isEmpty
  | c :: cs => sub.isPrefixOf (c :: cs) || listOccurs sub cs

/-- JavaScript `hay.includes(sub)`. -/
def strIncludes (hay sub : String) : Bool :=
  listOccurs sub.data hay.data

/-- Join a list of strings with a separator (JavaScript `Array.join`). -/
def joinWith (sep : String) : List String → String
  | [] => ""
  | [s] => s
  | s :: rest => s ++ sep ++ joinWith sep rest

/-- Split on runs of whitespace and drop empty tokens: the composition
`split(/\s+/)` + `filter(w => w.length > 0)` used throughout the source. -/
def wsTokens (s : String) : List String :=
  ((splitChars Char.isWhitespace s.data).map String.mk).filter
    (fun w => decide (w ≠ ""))

/-- Count of whitespace-separated non-empty tokens. -/
def countWords (s : String) : Nat :=
  (wsTokens s).length

/-- JavaScript `\w` character class: ASCII alphanumerics and underscore. -/
def isWordChar (c : Char) : Bool :=
  c.isAlphanum || c = '_'

/-- Tokens of `split(/\W+/)` with empty tokens dropped. -/
def wordTokens (s : String) : List String :=
  ((splitChars (fun c => !isWordChar c) s.data).map String.mk).filter
    (fun w => decide (w ≠ ""))

/-- Code-unit lexicographic strict order on character lists (the order
used by `localeCompare` and default `Array.sort`, restricted to ASCII). -/
def lexLt : List Char → List Char → Bool
  | [], [] => false
  | [], _ :: _ => true
  | _ :: _, [] => false
  | a :: as, b :: bs => decide (a.toNat < b.toNat) || (decide (a = b) && lexLt as bs)

/-- Strict code-unit order on strings. -/
def strLt (a b : String) : Prop := lexLt a.data b.data = true

/-- Non-strict code-unit order on strings. -/
def strLe (a b : String) : Prop := lexLt b.data a.data = false

instance : DecidableRel strLt := fun a b => by unfold strLt; infer_instance

instance : DecidableRel strLe := fun a b => by unfold strLe; infer_instance

/-! Order facts about `lexLt`, needed to show that sorting a permutation
of a string list yields the same sorted list. -/

theorem lexLt_irrefl (l : List Char) : lexLt l l = false := by
  induction l with
  | nil => rfl
  | cons c cs ih => simp [lexLt, ih]

theorem lexLt_asymm {a b : List Char} (h : lexLt a b = true) : lexLt b a = false := by
  induction a generalizing b with
  | nil =>
    cases b with
    | nil => simp [lexLt] at h
    | cons y ys => simp [lexLt]
  | cons x xs ih =>
    cases b with
    | nil => simp [lexLt] at h
    | cons y ys =>
      simp only [lexLt, Bool.or_eq_true, Bool.and_eq_true, decide_eq_true_eq] at h
      rcases h with h | ⟨rfl, h⟩
      · have h1 : ¬ y.toNat < x.toNat := by omega
        have h2 : y ≠ x := fun he => by rw [he] at h; exact Nat.lt_irrefl _ h
        simp [lexLt, h1, h2]
      · simp [lexLt, ih h]

theorem charEqOfToNatEq {a b : Char} (h : a.toNat = b.toNat) : a = b := by
  apply Char.eq_of_val_eq
  apply UInt32.eq_of_val_eq
  apply Fin.eq_of_val_eq
  exact h

theorem lexLt_total (a b : List Char) :
    lexLt a b = true ∨ lexLt b a = true ∨ a = b := by
  induction a generalizing b with
  | nil =>
    cases b with
    | nil => right; right; rfl
    | cons y ys => left; simp [lexLt]
  | cons x xs ih =>
    cases b with
    | nil => right; left; simp [lexLt]
    | cons y ys =>
      rcases Nat.lt_trichotomy x.toNat y.toNat with h | h | h
      · left; simp [lexLt, h]
      · have hxy : x = y := charEqOfToNatEq h
        subst hxy
        rcases ih ys with h' | h' | h'
        · left; simp [lexLt, h']
        · right; left; simp [lexLt, h']
        · right; right; rw [h']
      · right; left; simp [lexLt, h]

theorem lexLt_trans {a b c : List Char} (h₁ : lexLt a b = true)
    (h₂ : lexLt b c = true) : lexLt a c = true := by
  induction a generalizing b c with
  | nil =>
    cases b with
    | nil => simp [lexLt] at h₁
    | cons y ys =>
      cases c with
      | nil => simp [lexLt] at h₂
      | cons z zs => simp [lexLt]
  | cons x xs ih =>
    cases b with
    | nil => simp [lexLt] at h₁
    | cons y ys =>
      cases c with
      | nil => simp [lexLt] at h₂
      | cons z zs =>
        simp only [lexLt, Bool.or_eq_true, Bool.and_eq_true, decide_eq_true_eq] at h₁ h₂ ⊢
        rcases h₁ with h₁ | ⟨rfl, h₁⟩
        · rcases h₂ with h₂ | ⟨rfl, h₂⟩
          · exact Or.inl (Nat.lt_trans h₁ h₂)
          · exact Or.inl h₁
        · rcases h₂ with h₂ | ⟨rfl, h₂⟩
          · exact Or.inl h₂
          · exact Or.inr ⟨rfl, ih h₁ h₂⟩

instance : IsTotal String strLe where
  total a b := by
    unfold strLe
    rcases lexLt_total a.data b.data with h | h | h
    · exact Or.inl (lexLt_asymm h)
    · exact Or.inr (lexLt_asymm h)
    · left; rw [h]; exact lexLt_irrefl _

instance : IsTrans String strLe where
  trans a b c hab hbc := by
    unfold strLe at *
    by_cases h : lexLt c.data a.data = true
    · rcases lexLt_total a.data b.data with h' | h' | h'
      · have := lexLt_trans h h'
        rw [this] at hbc; cases hbc
      · rw [h'] at hab; cases hab
      · rw [h'] at h; rw [h] at hbc; cases hbc
    · exact Bool.of_not_eq_true h

instance : IsAntisymm String strLe where
  antisymm a b hab hba := by
    unfold strLe at hab hba
    rcases lexLt_total a.data b.data with h | h | h
    · rw [h] at hba; cases hba
    · rw [h] at hab; cases hab
    · cases a; cases b; cases h; rfl

/-- JavaScript `Array.prototype.sort()` on strings (default comparator):
stable sort by code-unit order, modelled with insertion sort. -/
def sortStrings (l : List String) : List String :=
  List.insertionSort strLe l

/-! ## Data model: documentation chunks produced by the indexer -/

/-- A documentation chunk as created by `DocumentationIndexer`.
`metadata.level` and `metadata.wordCount` are flattened into the
structure; `metadata.lastModified` (`new Date()`, wall clock) is omitted
from the model. -/
structure DocumentationChunk where
  id : String
  filePath : String
  sectionHeading : String
  content : String
  level : Nat
  wordCount : Nat
deriving DecidableEq

/-! ## Chunker (`DocumentationIndexer.splitByHeaders`) -/

/-- Match of the header regex `^(#{1,6})\s+(.+)$` against a single line:
returns the header level and the *trimmed* capture group 2 (the heading
text as the source computes it).  The line matches iff it starts with one
to six `#` characters — with no seventh `#` — followed by at least one
whitespace character and at least one further character. -/
def headerMatch (line : String) : Option (Nat × String) :=
  let hashes := line.data.takeWhile (fun c => c = '#')
  let rest := line.data.dropWhile (fun c => c = '#')
  if 1 ≤ hashes.length ∧ hashes.length ≤ 6 ∧ 2 ≤ rest.length ∧
      (match rest with
       | c :: _ => c.isWhitespace
       | [] => false) = true then
    some (hashes.length, jsTrim (String.mk rest))
  else
    none

/-- Accumulator for the chunk currently being collected. -/
structure ChunkAcc where
  heading : String
  level : Nat
  content : List String
deriving DecidableEq

/-- State of the line scan in `splitByHeaders`: emitted chunks, the open
accumulator, and the set of already-used chunk ids. -/
structure SplitState where
  chunks : List DocumentationChunk
  current : Option ChunkAcc
  usedIds : List String
deriving DecidableEq

/-- Character mapping of the id regex `[^a-z0-9]` → `-` (applied after
lower-casing). -/
def toIdChar (c : Char) : Char :=
  if ('a' ≤ c ∧ c ≤ 'z') ∨ ('0' ≤ c ∧ c ≤ '9') then c else '-'

/-- Collapse runs of dashes to a single dash (the global dash-collapsing
replace in `generateUniqueChunkId`). -/
def collapseDashes : List Char → List Char
  | [] => []
  | '-' :: rest =>
    match collapseDashes rest with
    | '-' :: r => '-' :: r
    | r => '-' :: r
  | c :: rest => c :: collapseDashes rest

/-- Auxiliary counter loop of `generateUniqueChunkId`; the fuel bound
`used.length + 1` suffices because the candidate ids are pairwise
distinct. -/
def freshIdAux (base : String) (used : List String) : Nat → Nat → String
  | 0, k => base ++ "-" ++ toString k
  | fuel + 1, k =>
    let cand := base ++ "-" ++ toString k
    if used.contains cand then freshIdAux base used fuel (k + 1) else cand

/-- `generateUniqueChunkId`: lowercase `filePath#heading`, non-alphanumeric
characters collapsed to single dashes, dashes stripped from both ends,
`"unnamed-section"` fallback, and a numeric suffix on collision. -/
def generateUniqueChunkId (filePath heading : String) (used : List String) : String :=
  let base := (jsLower (filePath ++ "#" ++ heading)).data.map toIdChar
  let clean := String.mk (trimCharsBy (fun c => c = '-') (collapseDashes base))
  let cleanId := if clean = "" then "unnamed-section" else clean
  if used.contains cleanId then freshIdAux cleanId used (used.length + 1) 1 else cleanId

/-- `createDocumentationChunk`: builds the chunk record; `wordCount` is the
whitespace token count of the (already trimmed) content.  The source
resolves `filePath` relative to the workspace root; the model takes the
relative path directly. -/
def createDocumentationChunk (heading : String) (level : Nat) (content : String)
    (filePath : String) (used : List String) : DocumentationChunk × List String :=
  let id := generateUniqueChunkId filePath heading used
  (⟨id, filePath, heading, content, level, countWords content⟩, used ++ [id])

/-- Save the open accumulator as a chunk when a header line is reached:
the chunk is pushed iff its trimmed content is non-empty or no line at all
was accumulated.  The accumulator itself is left in place (the source only
overwrites `currentChunk` afterwards — or does not, for skipped empty
headings). -/
def saveCurrent (filePath : String) (st : SplitState) : SplitState :=
  match st.current with
  | none => st
  | some cur =>
    let chunkContent := jsTrim (joinWith "\n" cur.content)
    if 0 < chunkContent.data.length ∨ cur.content.length = 0 then
      let (c, used') :=
        createDocumentationChunk cur.heading cur.level chunkContent filePath st.usedIds
      { st with chunks := st.chunks ++ [c], usedIds := used' }
    else
      st

/-- One step of the line scan of `splitByHeaders`. -/
def stepLine (filePath : String) (st : SplitState) (line : String) : SplitState :=
  match headerMatch line with
  | some (level, heading) =>
    let st1 := saveCurrent filePath st
    if heading = "" then
      st1
    else
      { st1 with current := some ⟨heading, level, []⟩ }
  | none =>
    match st.current with
    | some cur => { st with current := some { cur with content := cur.content ++ [line] } }
    | none =>
      if jsTrim line ≠ "" then
        { st with current := some ⟨"Introduction", 1, [line]⟩ }
      else
        st

/-- Final unconditional save of the last open accumulator. -/
def finalSave (filePath : String) (st : SplitState) : SplitState :=
  match st.current with
  | none => st
  | some cur =>
    let chunkContent := jsTrim (joinWith "\n" cur.content)
    let (c, used') :=
      createDocumentationChunk cur.heading cur.level chunkContent filePath st.usedIds
    { st with chunks := st.chunks ++ [c], usedIds := used' }

/-- `splitByHeaders(content, filePath)`: line scan over the markdown text,
followed by the final post-filter that drops `Introduction` chunks with
empty content. -/
def splitByHeaders (filePath content : String) : List DocumentationChunk :=
  if content = "" then []
  else
    let lines := (splitChars (fun c => c = '\n') content.data).map String.mk
    let st := lines.foldl (stepLine filePath) ⟨[], none, []⟩
    let st' := finalSave filePath st
    st'.chunks.filter
      (fun c => decide (0 < (jsTrim c.content).data.length ∨ c.sectionHeading ≠ "Introduction"))

/-- Number of lines of the input matching the header regex. -/
def headingLineCount (content : String) : Nat :=
  (((splitChars (fun c => c = '\n') content.data).map String.mk).filter
    (fun l => (headerMatch l).isSome)).length

/-! ## Chunker invariants (claims C6, C7) -/

/-- The per-chunk invariant of claim C6. -/
def ChunkOK (c : DocumentationChunk) : Prop :=
  c.sectionHeading ≠ "" ∧ 1 ≤ c.level ∧ c.level ≤ 6 ∧ c.wordCount = countWords c.content

/-- The invariant of the open accumulator. -/
def AccOK (a : ChunkAcc) : Prop :=
  a.heading ≠ "" ∧ 1 ≤ a.level ∧ a.level ≤ 6

/-- The invariant of the whole scan state. -/
def StateOK (st : SplitState) : Prop :=
  (∀ c ∈ st.chunks, ChunkOK c) ∧ (∀ a, st.current = some a → AccOK a)

theorem headerMatch_bounds {line : String} {lvl : Nat} {h : String}
    (hm : headerMatch line = some (lvl, h)) : 1 ≤ lvl ∧ lvl ≤ 6 := by
  simp only [headerMatch] at hm
  split at hm
  · rename_i hcond
    cases hm
    exact ⟨hcond.1, hcond.2.1⟩
  · cases hm

theorem createDocumentationChunk_ok {heading : String} {level : Nat}
    {content filePath : String} {used : List String}
    (h1 : heading ≠ "") (h2 : 1 ≤ level) (h3 : level ≤ 6) :
    ChunkOK (createDocumentationChunk heading level content filePath used).1 := by
  exact ⟨h1, h2, h3, rfl⟩

theorem saveCurrent_current (filePath : String) (st : SplitState) :
    (saveCurrent filePath st).current = st.current := by
  unfold saveCurrent
  cases hcur : st.current with
  | none => exact hcur
  | some cur =>
    simp only []
    split
    · rfl
    · exact hcur

theorem saveCurrent_ok (filePath : String) {st : SplitState} (h : StateOK st) :
    StateOK (saveCurrent filePath st) := by
  unfold saveCurrent
  cases hcur : st.current with
  | none => exact h
  | some cur =>
    simp only []
    split
    · refine ⟨?_, ?_⟩
      · intro c hc
        rcases List.mem_append.mp hc with hc | hc
        · exact h.1 c hc
        · have hacc := h.2 cur hcur
          rcases List.mem_singleton.mp hc with rfl
          exact createDocumentationChunk_ok hacc.1 hacc.2.1 hacc.2.2
      · intro a ha
        have hca : cur = a := by simpa using ha
        subst hca
        exact h.2 _ hcur
    · exact h

theorem saveCurrent_len (filePath : String) (st : SplitState) :
    (saveCurrent filePath st).chunks.length ≤ st.chunks.length + 1 := by
  unfold saveCurrent
  cases st.current with
  | none => exact Nat.le_add_right _ 1
  | some cur =>
    simp only []
    split
    · simp
    · exact Nat.le_add_right _ 1

theorem stepLine_ok {filePath : String} {st : SplitState} {line : String}
    (h : StateOK st) : StateOK (stepLine filePath st line) := by
  unfold stepLine
  cases hm : headerMatch line with
  | some p =>
    obtain ⟨lvl, hd⟩ := p
    have h1 := saveCurrent_ok filePath h
    simp only []
    split
    · exact h1
    · rename_i hne
      refine ⟨h1.1, ?_⟩
      intro a ha
      cases ha
      exact ⟨hne, (headerMatch_bounds hm).1, (headerMatch_bounds hm).2⟩
  | none =>
    cases hcur : st.current with
    | some cur =>
      refine ⟨h.1, ?_⟩
      intro a ha
      cases ha
      have := h.2 cur hcur
      exact ⟨this.1, this.2.1, this.2.2⟩
    | none =>
      simp only []
      split
      · refine ⟨h.1, ?_⟩
        intro a ha
        cases ha
        refine ⟨?_, ?_, ?_⟩
        · show "Introduction" ≠ ""
          decide
        · show 1 ≤ 1
          decide
        · show 1 ≤ 6
          decide
      · exact h

theorem stepLine_len_header (filePath : String) (st : SplitState) {line : String}
    {p : Nat × String} (hm : headerMatch line = some p) :
    (stepLine filePath st line).chunks.length ≤ st.chunks.length + 1 := by
  unfold stepLine
  rw [hm]
  obtain ⟨lvl, hd⟩ := p
  have h1 := saveCurrent_len filePath st
  simp only []
  split
  · exact h1
  · exact h1

theorem stepLine_len_nonheader (filePath : String) (st : SplitState) {line : String}
    (hm : headerMatch line = none) :
    (stepLine filePath st line).chunks = st.chunks := by
  unfold stepLine
  rw [hm]
  cases hcur : st.current with
  | some cur => rfl
  | none =>
    simp only []
    split
    · rfl
    · rfl

theorem foldl_stepLine_ok (filePath : String) (lines : List String) (st : SplitState)
    (h : StateOK st) : StateOK (List.foldl (stepLine filePath) st lines) := by
  induction lines generalizing st with
  | nil => exact h
  | cons l ls ih => exact ih _ (stepLine_ok h)

theorem foldl_stepLine_len (filePath : String) (lines : List String) (st : SplitState) :
    (List.foldl (stepLine filePath) st lines).chunks.length ≤
      st.chunks.length + (lines.filter (fun l => (headerMatch l).isSome)).length := by
  induction lines generalizing st with
  | nil => simp
  | cons l ls ih =>
    have h1 := ih (stepLine filePath st l)
    cases hm : headerMatch l with
    | some p =>
      have h2 := stepLine_len_header filePath st hm
      have h4 : ((l :: ls).filter (fun x => (headerMatch x).isSome)).length =
          (ls.filter (fun x => (headerMatch x).isSome)).length + 1 := by
        simp [List.filter_cons, hm]
      rw [List.foldl_cons, h4]
      omega
    | none =>
      have h2 := stepLine_len_nonheader filePath st hm
      have h3 : (stepLine filePath st l).chunks.length = st.chunks.length :=
        congrArg List.length h2
      simp only [List.foldl_cons, List.filter_cons, hm, Option.isSome_none]
      rw [if_neg (by simp)]
      omega

theorem finalSave_ok (filePath : String) {st : SplitState} (h : StateOK st) :
    StateOK (finalSave filePath st) := by
  unfold finalSave
  cases hcur : st.current with
  | none => exact h
  | some cur =>
    refine ⟨?_, ?_⟩
    · intro c hc
      rcases List.mem_append.mp hc with hc | hc
      · exact h.1 c hc
      · have hacc := h.2 cur hcur
        rcases List.mem_singleton.mp hc with rfl
        exact createDocumentationChunk_ok hacc.1 hacc.2.1 hacc.2.2
    · intro a ha
      have hca : cur = a := by simpa using ha
      subst hca
      exact h.2 _ hcur

theorem finalSave_len (filePath : String) (st : SplitState) :
    (finalSave filePath st).chunks.length ≤ st.chunks.length + 1 := by
  unfold finalSave
  cases st.current with
  | none => exact Nat.le_add_right _ 1
  | some cur => simp

theorem splitByHeaders_eq {filePath content : String} (h : content ≠ "") :
    splitByHeaders filePath content =
      (finalSave filePath
        (List.foldl (stepLine filePath) ⟨[], none, []⟩
          ((splitChars (fun ch => ch = '\n') content.data).map String.mk))).chunks.filter
        (fun c => decide (0 < (jsTrim c.content).data.length ∨ c.sectionHeading ≠ "Introduction")) := by
  simp [splitByHeaders, h]

/-- Claim C6: every chunk produced by `splitByHeaders` has a non-empty
`sectionHeading`, a level between 1 and 6, and a `wordCount` equal to the
number of whitespace-separated non-empty tokens of its content; and the
number of chunks is at most the number of heading lines plus one. -/
theorem c6_chunk_invariants (filePath content : String) (c : DocumentationChunk)
    (hc : c ∈ splitByHeaders filePath content) :
    (c.sectionHeading ≠ "" ∧ 1 ≤ c.level ∧ c.level ≤ 6 ∧
      c.wordCount = countWords c.content) ∧
    (splitByHeaders filePath content).length ≤ headingLineCount content + 1 := by
  constructor
  · by_cases hempty : content = ""
    · rw [hempty] at hc
      simp [splitByHeaders] at hc
    · have hmem : c ∈ (finalSave filePath
          (List.foldl (stepLine filePath)
            ⟨[], none, []⟩
            ((splitChars (fun ch => ch = '\n') content.data).map String.mk))).chunks := by
        unfold splitByHeaders at hc
        rw [if_neg hempty] at hc
        exact (List.mem_filter.mp hc).1
      have hinit : StateOK ⟨[], none, []⟩ := ⟨by simp, by simp⟩
      have hok := finalSave_ok filePath
        (foldl_stepLine_ok filePath
          ((splitChars (fun ch => ch = '\n') content.data).map String.mk)
          ⟨[], none, []⟩ hinit)
      exact hok.1 c hmem
  · by_cases hempty : content = ""
    · simp [splitByHeaders, hempty]
    · rw [splitByHeaders_eq hempty]
      have h1 := List.length_filter_le
        (fun c => decide (0 < (jsTrim c.content).data.length ∨ c.sectionHeading ≠ "Introduction"))
        (finalSave filePath
          (List.foldl (stepLine filePath) ⟨[], none, []⟩
            ((splitChars (fun ch => ch = '\n') content.data).map String.mk))).chunks
      have h2 := finalSave_len filePath
        (List.foldl (stepLine filePath) ⟨[], none, []⟩
          ((splitChars (fun ch => ch = '\n') content.data).map String.mk))
      have h3 := foldl_stepLine_len filePath
        ((splitChars (fun ch => ch = '\n') content.data).map String.mk) ⟨[], none, []⟩
      simp only [List.length_nil, Nat.zero_add] at h3
      unfold headingLineCount
      omega

/-- Witness for C6 at a concrete input. -/
theorem c6_chunk_invariants_witness :
    (⟨"doc-md-t", "doc.md", "T", "hi there", 1, 2⟩ : DocumentationChunk) ∈
      splitByHeaders "doc.md" "# T\nhi there" ∧
    ((⟨"doc-md-t", "doc.md", "T", "hi there", 1, 2⟩ : DocumentationChunk).sectionHeading ≠ "" ∧
      1 ≤ (⟨"doc-md-t", "doc.md", "T", "hi there", 1, 2⟩ : DocumentationChunk).level ∧
      (⟨"doc-md-t", "doc.md", "T", "hi there", 1, 2⟩ : DocumentationChunk).level ≤ 6 ∧
      (⟨"doc-md-t", "doc.md", "T", "hi there", 1, 2⟩ : DocumentationChunk).wordCount =
        countWords (⟨"doc-md-t", "doc.md", "T", "hi there", 1, 2⟩ : DocumentationChunk).content) ∧
    (splitByHeaders "doc.md" "# T\nhi there").length ≤ headingLineCount "# T\nhi there" + 1 :=
  ⟨by decide, c6_chunk_invariants "doc.md" "# T\nhi there" _ (by decide)⟩

/-- Claim C7, counterexample: for the input `"# A\nhello\n##  \nworld"`
(whose third line is a heading line with empty trimmed heading text), the
chunk list is *not* the one produced from the input with that line
deleted: the already-emitted previous chunk is emitted a second time with
the absorbed lines, giving two chunks instead of one. -/
theorem c7_counterexample :
    splitByHeaders "doc.md" "# A\nhello\n##  \nworld" ≠
      splitByHeaders "doc.md" "# A\nhello\nworld" ∧
    splitByHeaders "doc.md" "# A\nhello\n##  \nworld" =
      [⟨"doc-md-a", "doc.md", "A", "hello", 1, 1⟩,
       ⟨"doc-md-a-1", "doc.md", "A", "hello\nworld", 1, 2⟩] ∧
    splitByHeaders "doc.md" "# A\nhello\nworld" =
      [⟨"doc-md-a", "doc.md", "A", "hello\nworld", 1, 2⟩] := by
  refine ⟨by decide, by decide, by decide⟩

/-- Claim C7, amended: a heading line whose trimmed heading text is empty
begins no new chunk — processing it only performs the save of the open
chunk and leaves the accumulator in place, so the following lines are
absorbed into the previous chunk's accumulator.  (Because the previous
chunk was already saved at that point, it can be emitted a second time
with the absorbed content, so the chunk list is not the one obtained by
deleting the empty-heading line; see the counterexample.) -/
theorem c7_empty_heading_amended (filePath : String) (st : SplitState) (line : String)
    (lvl : Nat) (hm : headerMatch line = some (lvl, "")) :
    stepLine filePath st line = saveCurrent filePath st ∧
    (saveCurrent filePath st).current = st.current := by
  constructor
  · unfold stepLine
    rw [hm]
    rfl
  · exact saveCurrent_current filePath st

/-- Witness for the amended C7 at a concrete state and line. -/
theorem c7_empty_heading_amended_witness :
    headerMatch "##  " = some (2, "") ∧
    (stepLine "doc.md" ⟨[], some ⟨"A", 1, ["hello"]⟩, []⟩ "##  " =
        saveCurrent "doc.md" ⟨[], some ⟨"A", 1, ["hello"]⟩, []⟩ ∧
      (saveCurrent "doc.md" ⟨[], some ⟨"A", 1, ["hello"]⟩, []⟩).current =
        (⟨[], some ⟨"A", 1, ["hello"]⟩, []⟩ : SplitState).current) :=
  ⟨by decide, c7_empty_heading_amended "doc.md" _ "##  " 2 (by decide)⟩

/-! ## Vector store (`VectorStore.ts`) -/

/-- A stored documentation chunk row as returned by `searchSimilar`
(embedding deserialized; `metadata.lastModified` omitted as wall clock).
Vector components are exact rationals standing for the stored floats. -/
structure StoredChunk where
  id : String
  filePath : String
  sectionHeading : String
  content : String
  embedding : List ℚ
  wordCount : Nat
  level : Nat
deriving DecidableEq

/-- Sum of squares accumulated by the `cosineSimilarity` loop. -/
def sumSq (v : List ℚ) : ℚ :=
  v.foldl (fun s x => s + x * x) 0

/-- Dot product accumulated by the `cosineSimilarity` loop. -/
def dotProd (a b : List ℚ) : ℚ :=
  (List.zipWith (fun x y => x * y) a b).foldl (fun s x => s + x) 0

/-- `cosineSimilarity(a, b)`, with `Math.sqrt` abstracted as `sqrtF`.
The source throws on length mismatch or empty vectors and catches every
exception in the same function, returning 0, so those branches return 0
here; a zero denominator returns 0; the result is clamped to `[-1, 1]`.
(The per-component `isFinite` skip never fires over exact rationals.) -/
def cosineSimilarity (sqrtF : ℚ → ℚ) (a b : List ℚ) : ℚ :=
  if a.length ≠ b.length then 0
  else if a.length = 0 then 0
  else
    let d := dotProd a b
    let nA := sqrtF (sumSq a)
    let nB := sqrtF (sumSq b)
    if nA = 0 ∨ nB = 0 then 0
    else
      let s := d / (nA * nB)
      if s < -1 ∨ 1 < s then max (-1) (min 1 s) else s

/-- Descending-similarity relation used by the in-store sort
(`(a, b) => b.similarity - a.similarity`). -/
def simGE (a b : StoredChunk × ℚ) : Prop := b.2 ≤ a.2

instance : DecidableRel simGE := fun a b => by unfold simGE; infer_instance

instance : IsTotal (StoredChunk × ℚ) simGE where
  total a b := (le_total b.2 a.2).imp (fun h => h) (fun h => h)

instance : IsTrans (StoredChunk × ℚ) simGE where
  trans _ _ _ h1 h2 := le_trans h2 h1

/-- `searchSimilar(query, topK)`: embeds the query, scores every stored
row with `sim`, keeps scores at or above the threshold, sorts descending
by score, truncates to `min(topK, maxResults)` and strips the score.
Errors thrown by the source (`!query`, non-positive `topK`) are
`Except.error`; they are caught by the engine's retrieval wrapper. -/
def searchSimilar (sim : List ℚ → List ℚ → ℚ) (threshold : ℚ) (maxRes : Nat)
    (embed : String → List ℚ) (rows : List StoredChunk) (query : String)
    (topK : Nat) : Except String (List StoredChunk) :=
  if query = "" then .error "Query must be a non-empty string"
  else if jsTrim query = "" then .ok []
  else if topK = 0 then .error "topK must be a positive integer"
  else
    let qe := embed query
    let scored := rows.map (fun r => (r, sim qe r.embedding))
    let filtered := scored.filter (fun p => decide (threshold ≤ p.2))
    let sorted := List.insertionSort simGE filtered
    .ok ((sorted.take (min topK maxRes)).map Prod.fst)

theorem mem_sorted_scored {sim : List ℚ → List ℚ → ℚ} {threshold : ℚ}
    {qe : List ℚ} {rows : List StoredChunk} {p : StoredChunk × ℚ}
    (hp : p ∈ List.insertionSort simGE
      ((rows.map (fun r => (r, sim qe r.embedding))).filter
        (fun x => decide (threshold ≤ x.2)))) :
    p.1 ∈ rows ∧ p.2 = sim qe p.1.embedding ∧ threshold ≤ p.2 := by
  have h1 : p ∈ (rows.map (fun r => (r, sim qe r.embedding))).filter
      (fun x => decide (threshold ≤ x.2)) :=
    ((List.perm_insertionSort simGE _).mem_iff).mp hp
  have h2 := List.mem_filter.mp h1
  have h3 := h2.1
  obtain ⟨r, hr, hrp⟩ := List.mem_map.mp h3
  constructor
  · rw [← hrp]; exact hr
  constructor
  · rw [← hrp]
  · have := h2.2
    simpa using this

/-- Claim C5: every chunk returned by `searchSimilar` scores at least the
similarity threshold against the query embedding; the results are sorted
in descending order of similarity; at most `min(topK, maxResults)` chunks
are returned; and the returned objects are the stored chunks themselves
(the similarity score is stripped). -/
theorem c5_search_properties (sim : List ℚ → List ℚ → ℚ) (threshold : ℚ) (maxRes : Nat)
    (embed : String → List ℚ) (rows : List StoredChunk) (query : String) (topK : Nat)
    (res : List StoredChunk)
    (h : searchSimilar sim threshold maxRes embed rows query topK = Except.ok res) :
    (∀ c ∈ res, threshold ≤ sim (embed query) c.embedding) ∧
    res.Pairwise (fun a b => sim (embed query) b.embedding ≤ sim (embed query) a.embedding) ∧
    res.length ≤ min topK maxRes ∧
    (∀ c ∈ res, c ∈ rows) := by
  unfold searchSimilar at h
  split at h
  · cases h
  split at h
  · cases h
    refine ⟨by simp, by simp, by simp, by simp⟩
  split at h
  · cases h
  · cases h
    set qe := embed query with hqe
    set sorted := List.insertionSort simGE
      ((rows.map (fun r => (r, sim qe r.embedding))).filter
        (fun x => decide (threshold ≤ x.2))) with hsorted
    have hsort : sorted.Pairwise simGE := List.sorted_insertionSort simGE _
    have htake : (sorted.take (min topK maxRes)).Pairwise simGE :=
      hsort.sublist (List.take_sublist _ _)
    have hmemtake : ∀ p ∈ sorted.take (min topK maxRes),
        p.1 ∈ rows ∧ p.2 = sim qe p.1.embedding ∧ threshold ≤ p.2 := by
      intro p hp
      exact mem_sorted_scored ((List.take_sublist _ _).subset hp)
    refine ⟨?_, ?_, ?_, ?_⟩
    · intro c hc
      obtain ⟨p, hp, hpc⟩ := List.mem_map.mp hc
      obtain ⟨_, h2, h3⟩ := hmemtake p hp
      rw [← hpc, ← h2]
      exact h3
    · rw [List.pairwise_map]
      refine htake.imp_of_mem ?_
      intro a b ha hb hab
      have h2a := (hmemtake a ha).2.1
      have h2b := (hmemtake b hb).2.1
      unfold simGE at hab
      rw [← h2a, ← h2b]
      exact hab
    · calc ((sorted.take (min topK maxRes)).map Prod.fst).length
          = (sorted.take (min topK maxRes)).length := List.length_map _ _
        _ ≤ min topK maxRes := by
            rw [List.length_take]
            exact min_le_left _ _
    · intro c hc
      obtain ⟨p, hp, hpc⟩ := List.mem_map.mp hc
      rw [← hpc]
      exact (hmemtake p hp).1

/-- Witness for C5 at a concrete store and query. -/
theorem c5_search_properties_witness :
    searchSimilar (fun _ _ => 0) 0 10 (fun _ => [1])
        [⟨"a", "a.md", "A", "text", [1], 1, 1⟩] "q" 5 =
      Except.ok [⟨"a", "a.md", "A", "text", [1], 1, 1⟩] ∧
    ((∀ c ∈ [(⟨"a", "a.md", "A", "text", [1], 1, 1⟩ : StoredChunk)],
        (0 : ℚ) ≤ (fun _ _ => (0 : ℚ)) ((fun _ => [(1 : ℚ)]) "q") c.embedding) ∧
      List.Pairwise (fun a b : StoredChunk =>
        (fun _ _ => (0 : ℚ)) ((fun _ => [(1 : ℚ)]) "q") b.embedding ≤
          (fun _ _ => (0 : ℚ)) ((fun _ => [(1 : ℚ)]) "q") a.embedding)
        [⟨"a", "a.md", "A", "text", [1], 1, 1⟩] ∧
      ([(⟨"a", "a.md", "A", "text", [1], 1, 1⟩ : StoredChunk)]).length ≤ min 5 10 ∧
      (∀ c ∈ [(⟨"a", "a.md", "A", "text", [1], 1, 1⟩ : StoredChunk)],
        c ∈ [(⟨"a", "a.md", "A", "text", [1], 1, 1⟩ : StoredChunk)])) :=
  ⟨rfl, c5_search_properties (fun _ _ => 0) 0 10 (fun _ => [1])
    [⟨"a", "a.md", "A", "text", [1], 1, 1⟩] "q" 5
    [⟨"a", "a.md", "A", "text", [1], 1, 1⟩] rfl⟩

/-- Claim C9: `cosineSimilarity` is total and bounded — for any abstracted
square root with `sqrtF 0 = 0`, the result always lies in `[-1, 1]`, and
a zero-norm vector on either side yields exactly 0. -/
theorem c9_cosine_bounds (sqrtF : ℚ → ℚ) (a b : List ℚ) (h0 : sqrtF 0 = 0) :
    (-1 ≤ cosineSimilarity sqrtF a b ∧ cosineSimilarity sqrtF a b ≤ 1) ∧
    (sumSq a = 0 ∨ sumSq b = 0 → cosineSimilarity sqrtF a b = 0) := by
  constructor
  · simp only [cosineSimilarity]
    split
    · norm_num
    · split
      · norm_num
      · split
        · norm_num
        · split
          · constructor
            · exact le_max_left _ _
            · exact max_le (by norm_num) (min_le_left _ _)
          · rename_i hrange
            push_neg at hrange
            exact hrange
  · intro hz
    simp only [cosineSimilarity]
    split
    · rfl
    · split
      · rfl
      · rcases hz with hz | hz
        · rw [hz, h0]
          simp
        · rw [hz, h0]
          simp

/-- Witness for C9 at concrete vectors and square root. -/
theorem c9_cosine_bounds_witness :
    (fun _ => (0 : ℚ)) 0 = 0 ∧
    ((-1 ≤ cosineSimilarity (fun _ => 0) [0] [0] ∧
        cosineSimilarity (fun _ => 0) [0] [0] ≤ 1) ∧
      (sumSq [0] = 0 ∨ sumSq [0] = 0 → cosineSimilarity (fun _ => 0) [0] [0] = 0)) :=
  ⟨rfl, c9_cosine_bounds (fun _ => 0) [0] [0] rfl⟩

/-! ## Engine data model (`types/interfaces.ts`) -/

/-- A citation emitted with an explanation. -/
structure Citation where
  filePath : String
  sectionHeading : String
  relevanceScore : ℚ
deriving DecidableEq

/-- One user-initiated explanation request. -/
structure CodeContext where
  selectedText : String
  fileName : String
  language : String
  functionName : Option String
  className : Option String
  imports : List String
  surroundingContext : String
deriving DecidableEq

/-- The engine's output contract. -/
structure ExplanationResult where
  explanation : String
  citations : List Citation
  confidence : ℚ
  hasRelevantDocs : Bool
deriving DecidableEq

/-- JavaScript truthiness of an optional string field (`undefined` and the
empty string are falsy). -/
def optTruthy : Option String → Bool
  | none => false
  | some s => decide (s ≠ "")

/-! ## Explanation cache (`ExplanationCacheManager`) -/

/-- A cache entry; `timestamp` and `ttl` are in milliseconds. -/
structure CacheEntry where
  key : String
  explanation : String
  citations : List Citation
  timestamp : Int
  ttl : Int
deriving DecidableEq

/-- `defaultTTL`: 30 minutes in milliseconds. -/
def defaultTTL : Int := 30 * 60 * 1000

/-- `generateCacheKey`: SHA-256 of `fileName|functionName|className|selectedText`;
the hash is modelled as the identity on the key string (collision-freeness
of SHA-256). -/
def generateCacheKey (ctx : CodeContext) : String :=
  joinWith "|"
    [ctx.fileName, ctx.functionName.getD "", ctx.className.getD "", ctx.selectedText]

/-- Lookup in the cache map (modelled as an association list; `Map.set`
replaces the entry for an existing key). -/
def cacheGet (cache : List CacheEntry) (k : String) : Option CacheEntry :=
  cache.find? (fun e => decide (e.key = k))

/-- Remove every entry with the given key. -/
def cacheDelete (cache : List CacheEntry) (k : String) : List CacheEntry :=
  cache.filter (fun e => decide (e.key ≠ k))

/-- `Map.set`: replace any entry with the same key. -/
def cacheSet (cache : List CacheEntry) (e : CacheEntry) : List CacheEntry :=
  cacheDelete cache e.key ++ [e]

/-- `store(context, explanation, citations)` with the default TTL. -/
def cacheStore (cache : List CacheEntry) (now : Int) (ctx : CodeContext)
    (explanation : String) (citations : List Citation) : List CacheEntry :=
  cacheSet cache ⟨generateCacheKey ctx, explanation, citations, now, defaultTTL⟩

/-- `isValidEntry`: strict comparison `now < timestamp + ttl`. -/
def isValidEntry (now : Int) (e : CacheEntry) : Bool :=
  decide (now < e.timestamp + e.ttl)

/-- `retrieve(context)`: returns the valid entry if present; deletes an
expired entry as a side effect (the updated cache is returned). -/
def cacheRetrieve (cache : List CacheEntry) (now : Int) (ctx : CodeContext) :
    Option CacheEntry × List CacheEntry :=
  let k := generateCacheKey ctx
  match cacheGet cache k with
  | none => (none, cache)
  | some e => if isValidEntry now e then (some e, cache) else (none, cacheDelete cache k)

/-- `invalidateFile(filePath)`: delete every entry having at least one
citation whose `filePath` equals the given path. -/
def invalidateFile (cache : List CacheEntry) (filePath : String) : List CacheEntry :=
  cache.filter (fun e => !(e.citations.any (fun c => decide (c.filePath = filePath))))

/-! ## Grounding / enforcement engine (`RAGEngine.ts`) -/

/-- Stop words excluded from the query keywords. -/
def queryStopWords : List String :=
  ["const", "let", "var", "function", "class", "return", "if", "else", "for",
   "while", "result"]

/-- The camel-case splitting replace (a lowercase letter followed by an
uppercase letter gets a space inserted between them). -/
def camelSplit : List Char → List Char
  | [] => []
  | [c] => [c]
  | a :: b :: rest =>
    if a.isLower ∧ b.isUpper then a :: ' ' :: camelSplit (b :: rest)
    else a :: camelSplit (b :: rest)

/-- The punctuation-removing replace: every character that is neither a
word character nor whitespace becomes a space. -/
def replaceNonWordWithSpace (l : List Char) : List Char :=
  l.map (fun c => if isWordChar c || c.isWhitespace then c else ' ')

/-- JavaScript `s.startsWith(".")`. -/
def startsWithDot (s : String) : Bool :=
  match s.data with
  | c :: _ => decide (c = '.')
  | [] => false

/-- `buildQueryFromContext`: function name, class name, up to three
meaningful selected-text keywords (punctuation stripped, camel case split,
lower-cased, stop words removed), then up to two non-relative non-vendor
imports, joined with spaces. -/
def buildQueryFromContext (ctx : CodeContext) : String :=
  let p1 := if optTruthy ctx.functionName then [ctx.functionName.getD ""] else []
  let p2 := if optTruthy ctx.className then [ctx.className.getD ""] else []
  let selectedWords :=
    ((wsTokens (jsLower (String.mk
        (camelSplit (replaceNonWordWithSpace ctx.selectedText.data))))).filter
      (fun w => decide (2 < w.data.length ∧ w ∉ queryStopWords))).take 3
  let relevantImports :=
    (ctx.imports.filter
      (fun i => !(startsWithDot i) && !(strIncludes i "node_modules"))).take 2
  joinWith " " ((p1 ++ p2 ++ selectedWords ++ relevantImports).filter
    (fun s => decide (s ≠ "")))

/-- Stop words excluded from the relevance-score keywords. -/
def relevanceStopWords : List String :=
  ["function", "class", "const", "let", "var"]

/-- `calculateRelevanceScore`: weighted term overlap between the code
context and a chunk — 10 for a function/class-name match, 5 per matching
import, 2/3 per selected-text keyword matching content/heading, plus a
word-count bonus capped at 2. -/
def calculateRelevanceScore (ctx : CodeContext) (doc : StoredChunk) : ℚ :=
  let contentL := jsLower doc.content
  let headingL := jsLower doc.sectionHeading
  let s1 : ℚ :=
    match ctx.functionName with
    | some f =>
      if f ≠ "" ∧ (strIncludes contentL (jsLower f) || strIncludes headingL (jsLower f)) = true
      then 10 else 0
    | none => 0
  let s2 : ℚ :=
    match ctx.className with
    | some cl =>
      if cl ≠ "" ∧ (strIncludes contentL (jsLower cl) || strIncludes headingL (jsLower cl)) = true
      then 10 else 0
    | none => 0
  let s3 : ℚ := ctx.imports.foldl
    (fun acc imp => if strIncludes contentL (jsLower imp) then acc + 5 else acc) 0
  let selWords := (wsTokens (jsLower ctx.selectedText)).filter
    (fun w => decide (3 < w.data.length ∧ w ∉ relevanceStopWords))
  let s4 : ℚ := selWords.foldl
    (fun acc w =>
      let acc2 := if strIncludes contentL w then acc + 2 else acc
      if strIncludes headingL w then acc2 + 3 else acc2) 0
  let bonus : ℚ := min ((doc.wordCount : ℚ) / 50) 2
  s1 + s2 + s3 + s4 + bonus

/-- Result of the documentation-requirement check. -/
structure EnforcementResult where
  hasValidDocumentation : Bool
  fallbackResponse : String
deriving DecidableEq

/-- Generic placeholder phrases that disqualify a sole qualifying chunk. -/
def genericPhrases : List String :=
  ["todo", "tbd", "to be determined", "placeholder", "coming soon",
   "under construction", "not implemented"]

/-- Minimum relevance score required of at least one retrieved chunk. -/
def minRelevanceThreshold : ℚ := 1 / 10

/-- Minimum character count of at least one qualifying chunk's content. -/
def minContentLength : Nat := 20

/-- `enforceDocumentationRequirement`: the four-stage gate deciding
acceptance versus the `"Not documented."` rejection. -/
def enforceDocumentationRequirement (ctx : CodeContext) (docs : List StoredChunk) :
    EnforcementResult :=
  if docs.isEmpty then ⟨false, "Not documented."⟩
  else
    let relevantDocs := docs.filter
      (fun d => decide (minRelevanceThreshold ≤ calculateRelevanceScore ctx d))
    if relevantDocs.isEmpty then ⟨false, "Not documented."⟩
    else
      let substantialDocs := relevantDocs.filter
        (fun d => decide (minContentLength ≤ (jsTrim d.content).data.length))
      if substantialDocs.isEmpty then ⟨false, "Not documented."⟩
      else
        let hasGenericContent := substantialDocs.any
          (fun d => genericPhrases.any (fun p => strIncludes (jsLower d.content) p))
        if hasGenericContent ∧ substantialDocs.length = 1 then ⟨false, "Not documented."⟩
        else ⟨true, ""⟩

/-- Sentence splitting on runs of `.`, `!` and `?`. -/
def sentenceSplit (s : String) : List String :=
  (splitChars (fun c => (c = '.' : Bool) || (c = '!' : Bool) || (c = '?' : Bool)) s.data).map
    String.mk

/-- `generateImprovedExplanation`: context-appropriate introduction, the
first sentence of the primary chunk sharing a word with the code (else the
first long-enough sentence, else the section heading), and the trailing
source marker. -/
def generateImprovedExplanation (ctx : CodeContext) (docs : List StoredChunk) : String :=
  match docs with
  | [] => "Not documented."
  | primaryDoc :: _ =>
    let intro :=
      if optTruthy ctx.functionName then
        "The function \"" ++ ctx.functionName.getD "" ++ "\" "
      else if optTruthy ctx.className then
        "The class \"" ++ ctx.className.getD "" ++ "\" "
      else "This code "
    let content := jsTrim primaryDoc.content
    let sentences := (sentenceSplit content).filter
      (fun s => decide (10 < (jsTrim s).data.length))
    let body :=
      match sentences with
      | [] => "is mentioned in the " ++ primaryDoc.sectionHeading ++ " section."
      | s0 :: _ =>
        let codeWords := (wordTokens (jsLower ctx.selectedText)).filter
          (fun w => decide (2 < w.data.length))
        let best := (sentences.find?
          (fun s => codeWords.any (fun w => strIncludes (jsLower s) w))).getD s0
        "is documented as: \"" ++ jsTrim best ++ "\"."
    intro ++ body ++ " (Source: " ++ primaryDoc.filePath ++ " - " ++
      primaryDoc.sectionHeading ++ ")"

/-- Deterministic tie-break order: file path first, then section heading
(`localeCompare` modelled as code-unit order). -/
def chunkOrderPH (a b : StoredChunk) : Prop :=
  strLt a.filePath b.filePath ∨
    (a.filePath = b.filePath ∧ strLe a.sectionHeading b.sectionHeading)

instance : DecidableRel chunkOrderPH := fun a b => by unfold chunkOrderPH; infer_instance

/-- The deterministic re-sort by `(filePath, sectionHeading)`. -/
def sortByPathHeading (docs : List StoredChunk) : List StoredChunk :=
  List.insertionSort chunkOrderPH docs

/-- `retrieveRelevantDocsWithConsistentRanking`: retrieval errors are
caught and yield the empty list; results are re-sorted deterministically. -/
def retrieveRelevantDocsWithConsistentRanking
    (search : Except String (List StoredChunk)) : List StoredChunk :=
  match search with
  | .error _ => []
  | .ok chunks => sortByPathHeading chunks

/-- `generateDeterministicExplanation`: empty docs give the sentinel;
otherwise the docs are sorted deterministically and passed to the
improved generation. -/
def generateDeterministicExplanation (ctx : CodeContext) (docs : List StoredChunk) : String :=
  if docs.isEmpty then "Not documented."
  else generateImprovedExplanation ctx (sortByPathHeading docs)

/-- The stop-word list of the grounding validator. -/
def groundingStopWords : List String :=
  ["this", "that", "with", "from", "they", "have", "been", "will", "were",
   "said", "each", "which", "their", "time", "would", "there", "could",
   "other", "more", "very", "what", "know", "just", "first", "into", "over",
   "think", "also", "your", "work", "life", "only", "can", "still", "should",
   "after", "being", "now", "made", "before", "here", "through", "when",
   "where", "much", "some", "these", "many", "then", "them", "well", "were"]

/-- `validateExplanationGrounding`: at least 30% of the meaningful
explanation words must occur in the joined lower-cased documentation
contents; `"Not documented."` responses skip validation. -/
def validateExplanationGrounding (explanation : String) (docs : List StoredChunk) : Bool :=
  if strIncludes explanation "Not documented." then true
  else
    let explanationWords :=
      (wsTokens (String.mk (replaceNonWordWithSpace (jsLower explanation).data))).filter
        (fun w => decide (3 < w.data.length ∧ w ∉ groundingStopWords))
    if explanationWords.isEmpty then false
    else
      let docContents := joinWith " " (docs.map (fun d => jsLower d.content))
      let matching := (explanationWords.filter (fun w => strIncludes docContents w)).length
      decide ((3 : ℚ) / 10 ≤ (matching : ℚ) / (explanationWords.length : ℚ))

/-- Citation ordering: score descending when scores differ by more than
the epsilon `0.001`, then file path, then section heading. -/
def citationOrder (a b : Citation) : Prop :=
  if 1 / 1000 < |b.relevanceScore - a.relevanceScore| then
    b.relevanceScore ≤ a.relevanceScore
  else
    strLt a.filePath b.filePath ∨
      (a.filePath = b.filePath ∧ strLe a.sectionHeading b.sectionHeading)

instance : DecidableRel citationOrder := fun a b => by unfold citationOrder; infer_instance

/-- `extractCitationsWithConsistentOrdering`: position-based relevance
scores `max(0.1, 1 - index * 0.2)`, then the deterministic sort. -/
def extractCitationsWithConsistentOrdering (docs : List StoredChunk) : List Citation :=
  let cits := docs.enum.map (fun p =>
    (⟨p.2.filePath, p.2.sectionHeading,
      max (1 / 10 : ℚ) (1 - (p.1 : ℚ) * (2 / 10))⟩ : Citation))
  List.insertionSort citationOrder cits

/-- `calculateDeterministicConfidence`: `min(count/3, 1)` times
`min(avgWordCount/50, 1.2)`, capped at 1.  (The source sorts the docs
before summing; sum and length are permutation-invariant, so the sort is
omitted.) -/
def calculateDeterministicConfidence (docs : List StoredChunk) : ℚ :=
  if docs.isEmpty then 0
  else
    let baseConfidence := min ((docs.length : ℚ) / 3) 1
    let avgWordCount :=
      (docs.foldl (fun s d => s + (d.wordCount : ℚ)) 0) / (docs.length : ℚ)
    let qualityMultiplier := min (avgWordCount / 50) (12 / 10)
    min (baseConfidence * qualityMultiplier) 1

/-- `createErrorFallbackResponse`: map an error message to an
error-class-specific fallback result with empty citations, confidence 0
and `hasRelevantDocs = false`. -/
def createErrorFallbackResponse (errorMessage : String) : ExplanationResult :=
  let m :=
    if strIncludes errorMessage "network" || strIncludes errorMessage "connection" then
      "Unable to access documentation. Please check your connection."
    else if strIncludes errorMessage "storage" || strIncludes errorMessage "database" then
      "Documentation storage error. Please re-index documentation."
    else if strIncludes errorMessage "embedding" || strIncludes errorMessage "vector" then
      "Embedding generation error. Please try again."
    else if strIncludes errorMessage "timeout" then
      "Request timeout. Please try again with a smaller code selection."
    else if strIncludes errorMessage "memory" || strIncludes errorMessage "resource" then
      "Insufficient resources. Please try again with a smaller code selection."
    else "Error generating explanation."
  ⟨m, [], 0, false⟩

/-- 32-bit signed wrap-around (JavaScript `| 0` / `& hash` coercion). -/
def toInt32 (n : Int) : Int := (n + 2 ^ 31) % 2 ^ 32 - 2 ^ 31

/-- The hand-rolled deterministic string hash
(`hash = ((hash << 5) - hash) + charCode`, coerced to 32 bits each step). -/
def jsStringHash (s : String) : Int :=
  s.data.foldl (fun h c => toInt32 (toInt32 (h * 32) - h + (c.toNat : Int))) 0

/-- `Math.abs(hash).toString(16)`. -/
def natToHexChars (n : Nat) : String := String.mk (Nat.toDigits 16 n)

/-- `generateContextHash`: deterministic hash of
`selectedText|fileName|functionName|className|sortedImports|language`
(note: `surroundingContext` is not part of the input). -/
def generateContextHash (ctx : CodeContext) : String :=
  let hashInput := joinWith "|"
    [ctx.selectedText, ctx.fileName, ctx.functionName.getD "",
     ctx.className.getD "", joinWith "," (sortStrings ctx.imports), ctx.language]
  natToHexChars (jsStringHash hashInput).natAbs

/-- Environment of one engine instance: the abstracted floating-point
kernels (`embed`, `sqrtF`), the store configuration and contents, and
optional injected failures (`storeFail` models `searchSimilar` throwing,
`internalFail` models an exception inside `processExplanationRequest`,
both caught by the source). -/
structure RagEnv where
  embed : String → List ℚ
  sqrtF : ℚ → ℚ
  threshold : ℚ
  maxResults : Nat
  rows : List StoredChunk
  storeFail : Option String
  internalFail : Option String

/-- The vector-store search as seen by the engine. -/
def engineSearch (env : RagEnv) (query : String) (topK : Nat) :
    Except String (List StoredChunk) :=
  match env.storeFail with
  | some e => .error e
  | none =>
    searchSimilar (cosineSimilarity env.sqrtF) env.threshold env.maxResults
      env.embed env.rows query topK

/-- The retrieval step of one request (query build, search with topK = 5,
deterministic re-sort; errors swallowed to the empty list). -/
def engineDocs (env : RagEnv) (ctx : CodeContext) : List StoredChunk :=
  retrieveRelevantDocsWithConsistentRanking
    (engineSearch env (buildQueryFromContext ctx) 5)

/-- The result served from a cache hit: stored explanation and citations,
confidence forced to 1.0, `hasRelevantDocs` recomputed from the stored
citations. -/
def cacheHitResult (e : CacheEntry) : ExplanationResult :=
  ⟨e.explanation, e.citations, 1, !e.citations.isEmpty⟩

/-- The cache-miss path of `processExplanationRequest`: retrieval,
enforcement, generation, grounding validation, citation extraction,
confidence scoring, caching.  The third component records that retrieval
was invoked. -/
def freshResult (env : RagEnv) (now : Int) (cache1 : List CacheEntry) (ctx : CodeContext) :
    ExplanationResult × List CacheEntry × Bool :=
  let docs := engineDocs env ctx
  let enf := enforceDocumentationRequirement ctx docs
  if enf.hasValidDocumentation then
    let explanation := generateDeterministicExplanation ctx docs
    if validateExplanationGrounding explanation docs then
      let citations := extractCitationsWithConsistentOrdering docs
      let confidence := calculateDeterministicConfidence docs
      (⟨explanation, citations, confidence, true⟩,
        cacheStore cache1 now ctx explanation citations, true)
    else
      (⟨"Not documented.", [], 0, false⟩,
        cacheStore cache1 now ctx "Not documented." [], true)
  else
    (⟨enf.fallbackResponse, [], 0, false⟩,
      cacheStore cache1 now ctx enf.fallbackResponse [], true)

/-- `processExplanationRequest`: injected internal failures are caught and
mapped to the fallback; otherwise cache lookup, then the fresh path. -/
def processExplanationRequest (env : RagEnv) (now : Int) (cache : List CacheEntry)
    (ctx : CodeContext) : ExplanationResult × List CacheEntry × Bool :=
  match env.internalFail with
  | some e => (createErrorFallbackResponse e, cache, false)
  | none =>
    match cacheRetrieve cache now ctx with
    | (some entry, cache1) => (cacheHitResult entry, cache1, false)
    | (none, cache1) => freshResult env now cache1 ctx

/-- `explainCode`: input validation (an absent/empty `selectedText` throws
and is caught by the outer handler; a whitespace-only selection
short-circuits), then the request processing.  The in-flight
deduplication map is a no-op for a single sequential call and is not part
of this model. -/
def explainCode (env : RagEnv) (now : Int) (cache : List CacheEntry) (ctx : CodeContext) :
    ExplanationResult × List CacheEntry × Bool :=
  if ctx.selectedText = "" then
    (createErrorFallbackResponse "Selected text is required and must be a string",
      cache, false)
  else if jsTrim ctx.selectedText = "" then
    (⟨"No code selected for explanation.", [], 0, false⟩, cache, false)
  else
    processExplanationRequest env now cache ctx

/-! ## Supporting lemmas about the engine and cache -/

theorem enforce_cases (ctx : CodeContext) (docs : List StoredChunk) :
    enforceDocumentationRequirement ctx docs = ⟨false, "Not documented."⟩ ∨
    enforceDocumentationRequirement ctx docs = ⟨true, ""⟩ := by
  simp only [enforceDocumentationRequirement]
  split
  · left; rfl
  · split
    · left; rfl
    · split
      · left; rfl
      · split
        · left; rfl
        · right; rfl

theorem enforce_false_fallback {ctx : CodeContext} {docs : List StoredChunk}
    (h : (enforceDocumentationRequirement ctx docs).hasValidDocumentation = false) :
    (enforceDocumentationRequirement ctx docs).fallbackResponse = "Not documented." := by
  rcases enforce_cases ctx docs with h1 | h1
  · rw [h1]
  · rw [h1] at h
    cases h

theorem enforce_true_nonempty {ctx : CodeContext} {docs : List StoredChunk}
    (h : (enforceDocumentationRequirement ctx docs).hasValidDocumentation = true) :
    docs ≠ [] := by
  intro hnil
  subst hnil
  cases h

theorem extractCitations_ne_nil {docs : List StoredChunk} (h : docs ≠ []) :
    extractCitationsWithConsistentOrdering docs ≠ [] := by
  unfold extractCitationsWithConsistentOrdering
  intro hcontra
  apply h
  have hlen := congrArg List.length hcontra
  rw [(List.perm_insertionSort citationOrder _).length_eq] at hlen
  simp only [List.length_map, List.enum_length, List.length_nil] at hlen
  exact List.length_eq_zero.mp hlen

theorem find?_key_append_single (A : List CacheEntry) (e : CacheEntry)
    (h : ∀ x ∈ A, x.key ≠ e.key) :
    List.find? (fun x => decide (x.key = e.key)) (A ++ [e]) = some e := by
  rw [List.find?_append]
  have hA : List.find? (fun x => decide (x.key = e.key)) A = none := by
    rw [List.find?_eq_none]
    intro x hx
    simp [h x hx]
  rw [hA]
  simp

theorem cacheGet_set (c : List CacheEntry) (e : CacheEntry) :
    cacheGet (cacheSet c e) e.key = some e := by
  unfold cacheGet cacheSet
  apply find?_key_append_single
  intro x hx
  unfold cacheDelete at hx
  have := List.mem_filter.mp hx
  simpa using this.2

theorem cacheGet_set_filter (c : List CacheEntry) (e : CacheEntry) (q : CacheEntry → Bool)
    (hq : q e = true) :
    cacheGet ((cacheSet c e).filter q) e.key = some e := by
  unfold cacheGet cacheSet
  rw [List.filter_append]
  have h1 : List.filter q [e] = [e] := by simp [hq]
  rw [h1]
  apply find?_key_append_single
  intro x hx
  have hx2 := List.mem_filter.mp hx
  unfold cacheDelete at hx2
  have := List.mem_filter.mp hx2.1
  simpa using this.2

theorem find?_filter_of_imp {α : Type} (p q : α → Bool) (l : List α)
    (h : ∀ x, p x = true → q x = true) :
    List.find? p (l.filter q) = List.find? p l := by
  induction l with
  | nil => rfl
  | cons a t ih =>
    by_cases hq : q a = true
    · rw [List.filter_cons_of_pos hq]
      by_cases hp : p a = true
      · rw [List.find?_cons_of_pos _ hp, List.find?_cons_of_pos _ hp]
      · rw [List.find?_cons_of_neg _ (by simpa using hp),
          List.find?_cons_of_neg _ (by simpa using hp)]
        exact ih
    · rw [List.filter_cons_of_neg (by simpa using hq)]
      have hp : ¬ p a = true := fun hpa => hq (h a hpa)
      rw [List.find?_cons_of_neg _ (by simpa using hp)]
      exact ih

theorem cacheGet_set_other {c : List CacheEntry} {e : CacheEntry} {k : String}
    (h : e.key ≠ k) :
    cacheGet (cacheSet c e) k = cacheGet c k := by
  unfold cacheGet cacheSet cacheDelete
  rw [List.find?_append]
  rw [find?_filter_of_imp (fun x => decide (x.key = k)) (fun x => decide (x.key ≠ e.key)) c
    (fun x hx => by
      simp only [decide_eq_true_eq] at hx ⊢
      rw [hx]
      exact fun hk => h hk.symm)]
  have he : (decide (e.key = k)) = false := by simp [h]
  cases hf : List.find? (fun x => decide (x.key = k)) c with
  | some v => simp
  | none => simp [List.find?, he]

theorem cacheRetrieve_hit {cache : List CacheEntry} {now : Int} {ctx : CodeContext}
    {e : CacheEntry} (hget : cacheGet cache (generateCacheKey ctx) = some e)
    (hv : now < e.timestamp + e.ttl) :
    cacheRetrieve cache now ctx = (some e, cache) := by
  simp only [cacheRetrieve]
  rw [hget]
  simp [isValidEntry, hv]

theorem explainCode_of_ne {env : RagEnv} {now : Int} {cache : List CacheEntry}
    {ctx : CodeContext} (h1 : ctx.selectedText ≠ "") (h2 : jsTrim ctx.selectedText ≠ "") :
    explainCode env now cache ctx = processExplanationRequest env now cache ctx := by
  unfold explainCode
  rw [if_neg h1, if_neg h2]

theorem process_cache_hit {env : RagEnv} {now : Int} {cache cache1 : List CacheEntry}
    {ctx : CodeContext} {e : CacheEntry} (h3 : env.internalFail = none)
    (hcr : cacheRetrieve cache now ctx = (some e, cache1)) :
    processExplanationRequest env now cache ctx = (cacheHitResult e, cache1, false) := by
  unfold processExplanationRequest
  rw [h3, hcr]

theorem process_miss {env : RagEnv} {now : Int} {cache cache1 : List CacheEntry}
    {ctx : CodeContext} (h3 : env.internalFail = none)
    (hcr : cacheRetrieve cache now ctx = (none, cache1)) :
    processExplanationRequest env now cache ctx = freshResult env now cache1 ctx := by
  unfold processExplanationRequest
  rw [h3, hcr]

theorem freshResult_stores (env : RagEnv) (now : Int) (cache1 : List CacheEntry)
    (ctx : CodeContext) :
    (freshResult env now cache1 ctx).2.1 =
      cacheStore cache1 now ctx (freshResult env now cache1 ctx).1.explanation
        (freshResult env now cache1 ctx).1.citations := by
  simp only [freshResult]
  split
  · split
    · rfl
    · rfl
  · rfl

theorem freshResult_reject {env : RagEnv} (now : Int) (cache1 : List CacheEntry)
    {ctx : CodeContext}
    (h5 : (enforceDocumentationRequirement ctx (engineDocs env ctx)).hasValidDocumentation =
      false) :
    freshResult env now cache1 ctx =
      (⟨"Not documented.", [], 0, false⟩,
        cacheStore cache1 now ctx "Not documented." [], true) := by
  have hfb := enforce_false_fallback h5
  simp only [freshResult]
  rw [if_neg (by rw [h5]; exact Bool.false_ne_true), hfb]

theorem engineDocs_storeFail {env : RagEnv} (ctx : CodeContext) {e : String}
    (h : env.storeFail = some e) : engineDocs env ctx = [] := by
  unfold engineDocs engineSearch
  rw [h]
  rfl

theorem explainCode_hit_of_get {env : RagEnv} {now2 : Int} {cache2 : List CacheEntry}
    {ctx : CodeContext} {e : CacheEntry}
    (h1 : ctx.selectedText ≠ "") (h2 : jsTrim ctx.selectedText ≠ "")
    (h3 : env.internalFail = none)
    (hget : cacheGet cache2 (generateCacheKey ctx) = some e)
    (hv : now2 < e.timestamp + e.ttl) :
    explainCode env now2 cache2 ctx = (cacheHitResult e, cache2, false) := by
  rw [explainCode_of_ne h1 h2]
  exact process_cache_hit h3 (cacheRetrieve_hit hget hv)

theorem explainCode_fresh {env : RagEnv} {now : Int} {cache : List CacheEntry}
    {ctx : CodeContext} (h1 : ctx.selectedText ≠ "") (h2 : jsTrim ctx.selectedText ≠ "")
    (h3 : env.internalFail = none) (h4 : (cacheRetrieve cache now ctx).1 = none) :
    explainCode env now cache ctx =
      freshResult env now (cacheRetrieve cache now ctx).2 ctx := by
  rw [explainCode_of_ne h1 h2]
  cases hcr : cacheRetrieve cache now ctx with
  | mk o c1 =>
    rw [hcr] at h4
    simp only [] at h4
    subst h4
    exact process_miss h3 hcr

theorem strAppendCancelLeft {p s t : String} (h : p ++ s = p ++ t) : s = t := by
  have hdata : (p ++ s).data = (p ++ t).data := congrArg String.data h
  rw [String.data_append, String.data_append] at hdata
  have h2 := List.append_cancel_left hdata
  cases s; cases t; cases h2; rfl

theorem generateCacheKey_inj_selectedText {ctx ctx2 : CodeContext}
    (hf : ctx2.fileName = ctx.fileName) (hfn : ctx2.functionName = ctx.functionName)
    (hcl : ctx2.className = ctx.className) (hsel : ctx2.selectedText ≠ ctx.selectedText) :
    generateCacheKey ctx2 ≠ generateCacheKey ctx := by
  unfold generateCacheKey
  simp only [joinWith]
  rw [hf, hfn, hcl]
  intro hcontra
  apply hsel
  have h1 := strAppendCancelLeft hcontra
  have h2 := strAppendCancelLeft h1
  exact strAppendCancelLeft h2

theorem sortStrings_perm_eq {l l' : List String} (h : List.Perm l l') :
    sortStrings l = sortStrings l' := by
  unfold sortStrings
  exact List.eq_of_perm_of_sorted
    ((List.perm_insertionSort strLe l).trans (h.trans (List.perm_insertionSort strLe l').symm))
    (List.sorted_insertionSort strLe l) (List.sorted_insertionSort strLe l')

theorem mem_invalidateFile_of_nil {cache : List CacheEntry} {e : CacheEntry} {p : String}
    (he : e ∈ cache) (hcit : e.citations = []) : e ∈ invalidateFile cache p := by
  unfold invalidateFile
  rw [List.mem_filter]
  exact ⟨he, by simp [hcit]⟩

theorem explainCode_second_hit {env : RagEnv} {now2 now : Int} {cache1 : List CacheEntry}
    {ctx : CodeContext} (h1 : ctx.selectedText ≠ "") (h2 : jsTrim ctx.selectedText ≠ "")
    (h3 : env.internalFail = none) (h6 : now2 < now + defaultTTL)
    (expl : String) (cits : List Citation) :
    explainCode env now2 (cacheStore cache1 now ctx expl cits) ctx =
      (⟨expl, cits, 1, !cits.isEmpty⟩, cacheStore cache1 now ctx expl cits, false) := by
  have hget : cacheGet (cacheStore cache1 now ctx expl cits) (generateCacheKey ctx) =
      some ⟨generateCacheKey ctx, expl, cits, now, defaultTTL⟩ := by
    unfold cacheStore
    exact cacheGet_set cache1 _
  exact explainCode_hit_of_get h1 h2 h3 hget h6

/-! ## Claim theorems: engine and cache -/

/-- Claim C1, counterexample: the four-way equivalence fails on the code.
At a whitespace-only selection the result has `hasRelevantDocs = false`
but its explanation is the distinct `"No code selected for explanation."`
sentinel; and a second call served from the warm cache after a rejection
has `hasRelevantDocs = false` with confidence 1, not 0. -/
theorem c1_counterexample :
    ((explainCode ⟨fun _ => [], fun _ => 0, 0, 10, [], none, none⟩ 0 []
        ⟨" ", "a.ts", "typescript", none, none, [], ""⟩).1.hasRelevantDocs = false ∧
      (explainCode ⟨fun _ => [], fun _ => 0, 0, 10, [], none, none⟩ 0 []
        ⟨" ", "a.ts", "typescript", none, none, [], ""⟩).1.explanation ≠
        "Not documented.") ∧
    ((explainCode ⟨fun _ => [], fun _ => 0, 0, 10, [], none, none⟩ 0
        (explainCode ⟨fun _ => [], fun _ => 0, 0, 10, [], none, none⟩ 0 []
          ⟨"foo bar", "a.ts", "typescript", none, none, [], ""⟩).2.1
        ⟨"foo bar", "a.ts", "typescript", none, none, [], ""⟩).1.hasRelevantDocs = false ∧
      (explainCode ⟨fun _ => [], fun _ => 0, 0, 10, [], none, none⟩ 0
        (explainCode ⟨fun _ => [], fun _ => 0, 0, 10, [], none, none⟩ 0 []
          ⟨"foo bar", "a.ts", "typescript", none, none, [], ""⟩).2.1
        ⟨"foo bar", "a.ts", "typescript", none, none, [], ""⟩).1.confidence = 1) :=
  ⟨⟨by decide, by decide⟩, by decide, by decide⟩

/-- Claim C1, amended: every `ExplanationResult` returned by `explainCode`
satisfies `hasRelevantDocs = false` iff `citations = []`.  (The four-way
equivalence of the original claim fails: ungrounded results can carry the
"No code selected" sentinel or an error-specific message instead of
`"Not documented."`, and cache-hit rejections are served with confidence
1 rather than 0.) -/
theorem c1_equivalence_amended (env : RagEnv) (now : Int) (cache : List CacheEntry)
    (ctx : CodeContext) :
    ((explainCode env now cache ctx).1.hasRelevantDocs = false ↔
      (explainCode env now cache ctx).1.citations = []) := by
  unfold explainCode
  split
  · simp [createErrorFallbackResponse]
  · split
    · simp
    · unfold processExplanationRequest
      cases henv : env.internalFail with
      | some e => simp [createErrorFallbackResponse]
      | none =>
        cases hcr : cacheRetrieve cache now ctx with
        | mk o cache1 =>
          cases o with
          | some entry => simp [cacheHitResult]
          | none =>
            simp only [freshResult]
            split
            · rename_i henf
              split
              · have hnd : engineDocs env ctx ≠ [] := enforce_true_nonempty henf
                have hcne := extractCitations_ne_nil hnd
                simp [hcne]
              · simp
            · simp

/-- Claim C2, counterexample: with an empty store, the first call returns
the rejection with confidence 0, but the second (cache-warm) call with
the identical context returns confidence 1 — not the first call's
confidence value. -/
theorem c2_counterexample :
    (explainCode ⟨fun _ => [], fun _ => 0, 0, 10, [], none, none⟩ 0 []
      ⟨"foo bar", "a.ts", "typescript", none, none, [], ""⟩).1.confidence = 0 ∧
    (explainCode ⟨fun _ => [], fun _ => 0, 0, 10, [], none, none⟩ 0
      (explainCode ⟨fun _ => [], fun _ => 0, 0, 10, [], none, none⟩ 0 []
        ⟨"foo bar", "a.ts", "typescript", none, none, [], ""⟩).2.1
      ⟨"foo bar", "a.ts", "typescript", none, none, [], ""⟩).1.confidence = 1 :=
  ⟨by decide, by decide⟩

/-- Claim C2, amended: a second call with the identical context while the
cache is warm returns the first call's explanation and citations without
re-invoking retrieval and leaves the cache unchanged, but the confidence
is replaced by 1.0 (and `hasRelevantDocs` is recomputed from the stored
citations); and a context differing only in `selectedText` maps to a
different cache key, so storing its result leaves the first entry
untouched. -/
theorem c2_cache_behavior_amended (env : RagEnv) (now now2 : Int)
    (cache : List CacheEntry) (ctx ctx2 : CodeContext)
    (h1 : ctx.selectedText ≠ "") (h2 : jsTrim ctx.selectedText ≠ "")
    (h3 : env.internalFail = none) (h4 : (cacheRetrieve cache now ctx).1 = none)
    (h6 : now2 < now + defaultTTL) :
    ((explainCode env now2 (explainCode env now cache ctx).2.1 ctx).1.explanation =
        (explainCode env now cache ctx).1.explanation ∧
      (explainCode env now2 (explainCode env now cache ctx).2.1 ctx).1.citations =
        (explainCode env now cache ctx).1.citations ∧
      (explainCode env now2 (explainCode env now cache ctx).2.1 ctx).1.confidence = 1 ∧
      (explainCode env now2 (explainCode env now cache ctx).2.1 ctx).2.2 = false ∧
      (explainCode env now2 (explainCode env now cache ctx).2.1 ctx).2.1 =
        (explainCode env now cache ctx).2.1) ∧
    (ctx2.fileName = ctx.fileName → ctx2.functionName = ctx.functionName →
      ctx2.className = ctx.className → ctx2.selectedText ≠ ctx.selectedText →
      generateCacheKey ctx2 ≠ generateCacheKey ctx ∧
      ∀ (c : List CacheEntry) (n : Int) (expl : String) (cits : List Citation),
        cacheGet (cacheStore c n ctx2 expl cits) (generateCacheKey ctx) =
          cacheGet c (generateCacheKey ctx)) := by
  have hx := explainCode_fresh h1 h2 h3 h4
  constructor
  · rw [hx, freshResult_stores env now _ ctx,
      explainCode_second_hit h1 h2 h3 h6 _ _]
    exact ⟨rfl, rfl, rfl, rfl, rfl⟩
  · intro hf hfn hcl hsel
    refine ⟨generateCacheKey_inj_selectedText hf hfn hcl hsel, ?_⟩
    intro c n expl cits
    unfold cacheStore
    exact cacheGet_set_other (generateCacheKey_inj_selectedText hf hfn hcl hsel)

/-- Witness for the amended C2 at a concrete engine and context. -/
theorem c2_cache_behavior_amended_witness :
    (explainCode ⟨fun _ => [], fun _ => 0, 0, 10, [], none, none⟩ 0
        (explainCode ⟨fun _ => [], fun _ => 0, 0, 10, [], none, none⟩ 0 []
          ⟨"foo bar", "a.ts", "typescript", none, none, [], ""⟩).2.1
        ⟨"foo bar", "a.ts", "typescript", none, none, [], ""⟩).1.explanation =
      (explainCode ⟨fun _ => [], fun _ => 0, 0, 10, [], none, none⟩ 0 []
        ⟨"foo bar", "a.ts", "typescript", none, none, [], ""⟩).1.explanation :=
  (c2_cache_behavior_amended ⟨fun _ => [], fun _ => 0, 0, 10, [], none, none⟩ 0 0 []
    ⟨"foo bar", "a.ts", "typescript", none, none, [], ""⟩
    ⟨"x", "a.ts", "typescript", none, none, [], ""⟩
    (by decide) (by decide) rfl (by decide) (by decide)).1.1

set_option maxRecDepth 8000 in
/-- Claim C3, counterexample: two contexts that differ only in
`surroundingContext` receive the same deduplication hash (the hash input
omits `surroundingContext`), so they are coalesced, not distinct. -/
theorem c3_counterexample :
    generateContextHash ⟨"foo bar", "a.ts", "typescript", none, none, [], "ctx one"⟩ =
      generateContextHash ⟨"foo bar", "a.ts", "typescript", none, none, [], "ctx two"⟩ ∧
    ("ctx one" : String) ≠ "ctx two" :=
  ⟨by decide, by decide⟩

/-- Claim C3, amended: the deduplication hash is a deterministic function
of `(selectedText, fileName, functionName, className, imports, language)`
with the imports sorted — permuting `imports` or changing only
`surroundingContext` yields the same hash (so such requests are coalesced
in flight, while a change to any hashed field yields an independent hash
input). -/
theorem c3_hash_amended (c1 c2 : CodeContext)
    (h1 : c1.selectedText = c2.selectedText) (h2 : c1.fileName = c2.fileName)
    (h3 : c1.functionName = c2.functionName) (h4 : c1.className = c2.className)
    (h5 : List.Perm c1.imports c2.imports) (h6 : c1.language = c2.language) :
    generateContextHash c1 = generateContextHash c2 := by
  unfold generateContextHash
  rw [h1, h2, h3, h4, h6, sortStrings_perm_eq h5]

set_option maxRecDepth 8000 in
/-- Witness for the amended C3: permuted imports and a different
surrounding context give the same hash. -/
theorem c3_hash_amended_witness :
    List.Perm ["b", "a"] ["a", "b"] ∧
    generateContextHash ⟨"sel", "f.ts", "typescript", none, none, ["b", "a"], "one"⟩ =
      generateContextHash ⟨"sel", "f.ts", "typescript", none, none, ["a", "b"], "two"⟩ :=
  ⟨by decide,
    c3_hash_amended ⟨"sel", "f.ts", "typescript", none, none, ["b", "a"], "one"⟩
      ⟨"sel", "f.ts", "typescript", none, none, ["a", "b"], "two"⟩
      rfl rfl rfl rfl (by decide) rfl⟩

/-- Claim C8, counterexample: a failure during retrieval (here a network
error thrown by the vector store) is swallowed by the retrieval wrapper
and surfaces as the `"Not documented."` rejection — not as the
error-class-specific message the claim requires for retrieval failures. -/
theorem c8_counterexample :
    (explainCode ⟨fun _ => [], fun _ => 0, 0, 10, [],
        some "network connection failed", none⟩ 0 []
      ⟨"foo bar", "a.ts", "typescript", none, none, [], ""⟩).1.explanation =
      "Not documented." ∧
    ("Not documented." : String) ≠
      "Unable to access documentation. Please check your connection." :=
  ⟨by decide, by decide⟩

/-- Claim C8, amended: `explainCode` never propagates an exception — the
fallback result always has empty citations, confidence 0 and
`hasRelevantDocs = false`; failures inside `processExplanationRequest`
are mapped to the error-class-specific messages (which are pairwise
distinct for the network, storage, embedding, timeout and resource
classes); but failures thrown by the vector-store search are swallowed by
the retrieval wrapper and surface as the `"Not documented."` rejection
instead. -/
theorem c8_error_handling_amended (env : RagEnv) (now : Int) (cache : List CacheEntry)
    (ctx : CodeContext) (e : String) :
    ((createErrorFallbackResponse e).citations = [] ∧
      (createErrorFallbackResponse e).confidence = 0 ∧
      (createErrorFallbackResponse e).hasRelevantDocs = false) ∧
    (env.internalFail = some e → ctx.selectedText ≠ "" → jsTrim ctx.selectedText ≠ "" →
      explainCode env now cache ctx = (createErrorFallbackResponse e, cache, false)) ∧
    (env.storeFail = some e → env.internalFail = none → ctx.selectedText ≠ "" →
      jsTrim ctx.selectedText ≠ "" → (cacheRetrieve cache now ctx).1 = none →
      (explainCode env now cache ctx).1 = ⟨"Not documented.", [], 0, false⟩) ∧
    List.Pairwise (fun a b => a ≠ b)
      [(createErrorFallbackResponse "network").explanation,
       (createErrorFallbackResponse "storage").explanation,
       (createErrorFallbackResponse "embedding").explanation,
       (createErrorFallbackResponse "timeout").explanation,
       (createErrorFallbackResponse "memory").explanation,
       (createErrorFallbackResponse "other").explanation] := by
  refine ⟨⟨rfl, rfl, rfl⟩, ?_, ?_, by decide⟩
  · intro hif h1 h2
    rw [explainCode_of_ne h1 h2]
    unfold processExplanationRequest
    rw [hif]
  · intro hsf hif h1 h2 h4
    rw [explainCode_fresh h1 h2 hif h4]
    have hdocs := engineDocs_storeFail ctx hsf
    have h5 : (enforceDocumentationRequirement ctx
        (engineDocs env ctx)).hasValidDocumentation = false := by
      rw [hdocs]
      rfl
    rw [freshResult_reject _ _ h5]

/-- Witness for the amended C8: an injected internal timeout failure
yields the timeout fallback tuple. -/
theorem c8_error_handling_amended_witness :
    explainCode ⟨fun _ => [], fun _ => 0, 0, 10, [], none, some "timeout hit"⟩ 0 []
        ⟨"foo bar", "a.ts", "typescript", none, none, [], ""⟩ =
      (createErrorFallbackResponse "timeout hit", [], false) :=
  (c8_error_handling_amended ⟨fun _ => [], fun _ => 0, 0, 10, [], none, some "timeout hit"⟩
    0 [] ⟨"foo bar", "a.ts", "typescript", none, none, [], ""⟩ "timeout hit").2.1
    rfl (by decide) (by decide)

/-- Claim C10: rejection results are cached with empty citations and are
immune to `invalidateFile` — an entry with no citations survives every
`invalidateFile` call, and after a rejection the cached
`"Not documented."` entry keeps being served for the identical context
(with confidence forced to 1 by the cache-hit path) until its TTL
expires, regardless of intervening file invalidations. -/
theorem c10_rejection_cache_immune
    (cache : List CacheEntry) (p : String) (e : CacheEntry)
    (he : e ∈ cache) (hcit : e.citations = [])
    (env : RagEnv) (now now2 : Int) (cache0 : List CacheEntry) (ctx : CodeContext)
    (p2 : String)
    (h1 : ctx.selectedText ≠ "") (h2 : jsTrim ctx.selectedText ≠ "")
    (h3 : env.internalFail = none) (h4 : (cacheRetrieve cache0 now ctx).1 = none)
    (h5 : (enforceDocumentationRequirement ctx
      (engineDocs env ctx)).hasValidDocumentation = false)
    (h6 : now2 < now + defaultTTL) :
    e ∈ invalidateFile cache p ∧
    (explainCode env now cache0 ctx).1 = ⟨"Not documented.", [], 0, false⟩ ∧
    explainCode env now2 (invalidateFile (explainCode env now cache0 ctx).2.1 p2) ctx =
      (⟨"Not documented.", [], 1, false⟩,
        invalidateFile (explainCode env now cache0 ctx).2.1 p2, false) := by
  have hx := explainCode_fresh h1 h2 h3 h4
  have hrej := freshResult_reject now ((cacheRetrieve cache0 now ctx).2) h5
  refine ⟨mem_invalidateFile_of_nil he hcit, ?_, ?_⟩
  · rw [hx, hrej]
  · rw [hx, hrej]
    have hget : cacheGet (invalidateFile
        (cacheStore (cacheRetrieve cache0 now ctx).2 now ctx "Not documented." []) p2)
        (generateCacheKey ctx) =
        some ⟨generateCacheKey ctx, "Not documented.", [], now, defaultTTL⟩ := by
      unfold invalidateFile cacheStore
      exact cacheGet_set_filter _ _ _ (by simp)
    exact explainCode_hit_of_get h1 h2 h3 hget h6

/-- Witness for C10 at a concrete engine, cache and context. -/
theorem c10_rejection_cache_immune_witness :
    (⟨"k", "x", [], 0, 5⟩ : CacheEntry) ∈
      invalidateFile [(⟨"k", "x", [], 0, 5⟩ : CacheEntry)] "doc.md" ∧
    explainCode ⟨fun _ => [], fun _ => 0, 0, 10, [], none, none⟩ 0
        (invalidateFile
          (explainCode ⟨fun _ => [], fun _ => 0, 0, 10, [], none, none⟩ 0 []
            ⟨"foo bar", "a.ts", "typescript", none, none, [], ""⟩).2.1 "a.md")
        ⟨"foo bar", "a.ts", "typescript", none, none, [], ""⟩ =
      (⟨"Not documented.", [], 1, false⟩,
        invalidateFile
          (explainCode ⟨fun _ => [], fun _ => 0, 0, 10, [], none, none⟩ 0 []
            ⟨"foo bar", "a.ts", "typescript", none, none, [], ""⟩).2.1 "a.md", false) :=
  ⟨(c10_rejection_cache_immune [⟨"k", "x", [], 0, 5⟩] "doc.md" ⟨"k", "x", [], 0, 5⟩
      (by decide) rfl ⟨fun _ => [], fun _ => 0, 0, 10, [], none, none⟩ 0 0 []
      ⟨"foo bar", "a.ts", "typescript", none, none, [], ""⟩ "a.md"
      (by decide) (by decide) rfl (by decide) (by decide) (by decide)).1,
    (c10_rejection_cache_immune [⟨"k", "x", [], 0, 5⟩] "doc.md" ⟨"k", "x", [], 0, 5⟩
      (by decide) rfl ⟨fun _ => [], fun _ => 0, 0, 10, [], none, none⟩ 0 0 []
      ⟨"foo bar", "a.ts", "typescript", none, none, [], ""⟩ "a.md"
      (by decide) (by decide) rfl (by decide) (by decide) (by decide)).2.2⟩
